import Mathlib

/-!
Verification of the `simple-yaml-parser` scanner (`src/lib.rs`).

The scanner is embedded shallowly: the input is a `List Char` (Rust's
`char_indices` yields characters at byte offsets; for the slices the code
takes, byte offsets at char boundaries are order-isomorphic to character
positions, so character positions are used throughout), the per-character
state machine of `parse_with_exit_signal` becomes the `step` function below,
and the main loop becomes the structurally recursive `go`.  Callback side
effects are made observable by accumulating the emitted `(key-path, value)`
pairs in an `events` field of the scanner state; faithful to the Rust code,
the callback's boolean result is computed and discarded.
-/

set_option maxRecDepth 100000

/-- `YAMLKey` from src/lib.rs lines 1-5. -/
inductive YAMLKey where
  | Slice (s : List Char)
  | Index (i : Nat)
deriving DecidableEq

/-- `MultilineString` from src/lib.rs lines 62-69. -/
structure MultilineString where
  on' : List Char
  collapse : Bool
  preserve_leading_whitespace : Bool
deriving DecidableEq

/-- `RootYAMLValue` from src/lib.rs lines 7-15. -/
inductive RootYAMLValue where
  | String (s : List Char)
  | MultilineString (m : MultilineString)
  | Number (s : List Char)
  | True
  | False
deriving DecidableEq

/-- `YAMLParseErrorReason` from src/lib.rs lines 17-24. -/
inductive YAMLParseErrorReason where
  | ExpectedColon
  | ExpectedEndOfValue
  | ExpectedBracket
  | ExpectedTrueFalseNull
  | ExpectedValue
deriving DecidableEq

/-- `YAMLParseError` from src/lib.rs lines 26-30 (`at` is a Lean keyword,
hence `at'`). -/
structure YAMLParseError where
  at' : Nat
  reason : YAMLParseErrorReason

/-- `ParseOptions` from src/lib.rs lines 71-73. -/
structure ParseOptions where
  indent_size : Nat

/-- `Default for ParseOptions` from src/lib.rs lines 75-79. -/
def ParseOptions.default : ParseOptions := ⟨2⟩

/-- The local `enum State` of `parse_with_exit_signal`, src/lib.rs lines 89-99. -/
inductive State where
  | Value
  | Identifier
  | ListItem
  | Multiline (collapse : Bool) (preserve_leading_whitespace : Bool) (indent : Nat)
  | Skip
deriving DecidableEq

/-- One emitted callback invocation: the key-path and the value. -/
abbrev Event := List YAMLKey × RootYAMLValue

/-- The callback type of `parse_with_exit_signal` (`FnMut(&[YAMLKey], RootYAMLValue) -> bool`). -/
abbrev Callback := List YAMLKey → RootYAMLValue → Bool

/-- Rust `char::is_whitespace`: the Unicode `White_Space` property. -/
def rustIsWhitespace (c : Char) : Bool :=
  c.toNat = 0x09 || c.toNat = 0x0A || c.toNat = 0x0B || c.toNat = 0x0C ||
  c.toNat = 0x0D || c.toNat = 0x20 || c.toNat = 0x85 || c.toNat = 0xA0 ||
  c.toNat = 0x1680 || (0x2000 ≤ c.toNat && c.toNat ≤ 0x200A) ||
  c.toNat = 0x2028 || c.toNat = 0x2029 || c.toNat = 0x202F ||
  c.toNat = 0x205F || c.toNat = 0x3000

/-- Rust `str::trim`: strip leading and trailing whitespace characters. -/
def trimList (s : List Char) : List Char :=
  ((s.dropWhile rustIsWhitespace).reverse.dropWhile rustIsWhitespace).reverse

/-- The Rust slice `on'[a..b]`, at character positions. -/
def sliceBetween (on' : List Char) (a b : Nat) : List Char :=
  (on'.drop a).take (b - a)

/-- The look-ahead loop of the `Multiline` state, src/lib.rs lines 155-167:
returns `(upcoming_indent, is_empty)` for the upcoming line.  Each tab or
space adds 1; a newline before any other character marks the line empty;
any other character stops the count. -/
def upcomingScan : List Char → Nat × Bool
  | [] => (0, false)
  | c :: rest =>
    if c = '\n' then (0, true)
    else if c = '\t' ∨ c = ' ' then
      let p := upcomingScan rest
      (p.1 + 1, p.2)
    else (0, false)

/-- The count of `Slice` (`Named`) entries on the key chain,
src/lib.rs lines 185-188. -/
def countNamed (ks : List YAMLKey) : Nat :=
  (ks.filter fun k => match k with | YAMLKey.Slice _ => true | _ => false).length

/-- The `true`/`false`/string classification of a trimmed scalar,
src/lib.rs lines 135-139 and 221-225. -/
def classifyScalar (v : List Char) : RootYAMLValue :=
  if v = ['t', 'r', 'u', 'e'] then RootYAMLValue.True
  else if v = ['f', 'a', 'l', 's', 'e'] then RootYAMLValue.False
  else RootYAMLValue.String v

/-- The mutable locals of `parse_with_exit_signal` (src/lib.rs lines 103-107)
plus the trace of emitted events. -/
structure ScanState where
  state : State
  key_chain : List YAMLKey
  list_idx : Nat
  indent : Nat
  start : Nat
  events : List Event
deriving DecidableEq

/-- The body of the `for (idx, chr) in chars` loop of `parse_with_exit_signal`,
src/lib.rs lines 109-247, as a function of the current character and state.
The key chain's `push`/`pop`/`drain`/`last` act at the end of the list. -/
def step (opts : ParseOptions) (cb : Callback) (on' : List Char)
    (idx : Nat) (chr : Char) (st : ScanState) : ScanState :=
  match st.state with
  | State.Value =>
    let rest_of_line := trimList (sliceBetween on' st.start idx)
    if rest_of_line = [] ∧ chr = '-' then
      { st with state := State.ListItem, start := idx + 1 }
    else if chr = '\n' then
      if rest_of_line = [] then
        { st with state := State.Skip, indent := 0 }
      else
        let modifier : Option (Bool × Bool) :=
          if rest_of_line = ['|'] then some (true, false)
          else if rest_of_line = ['>'] then some (false, false)
          else none
        match modifier with
        | some (collapse, preserve_leading_whitespace) =>
          { st with state := State.Multiline collapse preserve_leading_whitespace st.indent,
                    start := idx, indent := 0 }
        | none =>
          let value := classifyScalar (trimList (sliceBetween on' st.start idx))
          let _ := cb st.key_chain value
          { st with events := st.events ++ [(st.key_chain, value)],
                    key_chain := st.key_chain.dropLast,
                    state := State.Skip, indent := 0 }
    else st
  | State.Multiline collapse preserve_leading_whitespace current_indent =>
    if chr = '\n' then
      let scanned := upcomingScan (on'.drop (idx + 1))
      if scanned.2 = false ∧ scanned.1 ≤ current_indent then
        let value := RootYAMLValue.MultilineString
          ⟨sliceBetween on' st.start idx, collapse, preserve_leading_whitespace⟩
        let _ := cb st.key_chain value
        { st with events := st.events ++ [(st.key_chain, value)],
                  key_chain := st.key_chain.dropLast,
                  state := State.Skip, indent := 0 }
      else st
    else st
  | State.Identifier =>
    if chr = ':' then
      let key := YAMLKey.Slice (trimList (sliceBetween on' st.start idx))
      let current_level := st.indent / opts.indent_size
      let keys := countNamed st.key_chain
      let trunc :=
        if current_level < keys then
          let kc := st.key_chain.take current_level
          (kc, match kc.getLast? with
               | some (YAMLKey.Index i) => i
               | _ => 0)
        else (st.key_chain, st.list_idx)
      { st with key_chain := trunc.1 ++ [key], list_idx := trunc.2,
                state := State.Value, start := idx + 1 }
    else st
  | State.ListItem =>
    if chr = ':' then
      let current_level := st.indent / opts.indent_size
      let kc :=
        if current_level < st.key_chain.length then
          st.key_chain.take (current_level + 1)
        else st.key_chain
      { st with key_chain := kc ++ [YAMLKey.Index st.list_idx,
                  YAMLKey.Slice (trimList (sliceBetween on' st.start idx))],
                state := State.Value, start := idx + 1,
                list_idx := st.list_idx + 1 }
    else if chr = '\n' then
      let kc := st.key_chain ++ [YAMLKey.Index st.list_idx]
      let value := classifyScalar (trimList (sliceBetween on' st.start idx))
      let _ := cb kc value
      { st with events := st.events ++ [(kc, value)],
                key_chain := kc.dropLast,
                list_idx := st.list_idx + 1,
                state := State.Skip, indent := 0 }
    else st
  | State.Skip =>
    if chr = '-' then
      { st with state := State.ListItem, start := idx + 1 }
    else if chr = '\t' then
      { st with indent := st.indent + opts.indent_size }
    else if chr = ' ' then
      { st with indent := st.indent + 1 }
    else if rustIsWhitespace chr = false then
      { st with state := State.Identifier, start := idx }
    else st

/-- The scan loop: processes the remaining characters (first argument) whose
first character sits at position `idx` of the full input `on'`. -/
def go (opts : ParseOptions) (cb : Callback) (on' : List Char) :
    List Char → Nat → ScanState → ScanState
  | [], _, st => st
  | c :: cs, idx, st => go opts cb on' cs (idx + 1) (step opts cb on' idx c st)

/-- The initial locals of `parse_with_exit_signal`, src/lib.rs lines 103-107. -/
def initState : ScanState :=
  ⟨State.Identifier, [], 0, 0, 0, []⟩

/-- Run the scanner over the whole input and return the final state
(including the trace of callback invocations). -/
def scanRun (on' : List Char) (cb : Callback) (opts : ParseOptions) : ScanState :=
  go opts cb on' on' 0 initState

/-- Run the scanner over only the first `n` characters of the input (the
look-ahead and slices still see the full input). -/
def runUpTo (on' : List Char) (cb : Callback) (opts : ParseOptions) (n : Nat) : ScanState :=
  go opts cb on' (on'.take n) 0 initState

/-- `parse_with_exit_signal`, src/lib.rs lines 84-252: scans the whole input
and returns `Ok(())`; the loop body has no early return and no error path. -/
def parse_with_exit_signal (on' : List Char) (cb : Callback) (opts : ParseOptions) :
    Except YAMLParseError Unit :=
  let _ := scanRun on' cb opts
  Except.ok ()

/-- `parse`, src/lib.rs lines 47-59: wraps the callback to always signal
`false` (keep going) and uses the default options. -/
def parse (on' : List Char) (cb : List YAMLKey → RootYAMLValue → Unit) :
    Except YAMLParseError Unit :=
  parse_with_exit_signal on' (fun k v => let _ := cb k v; false) ParseOptions.default

/-- The sample document embedded in `src/examples/main.rs` lines 4-21
(after `trim_start`). -/
def sampleDoc : List Char :=
  ("person:\n  name: John Doe\n  description: |\n    something here\n    that spans multiple lines\n  age: 30\n  something:\n    x: true\n  address:\n    street: 123 Main St\n    city: Example City\nplaces:\n  list: [\"something\", \"here\"]\n  inner:\n    x: string\n").toList

/-- The callback used when only the event trace matters (signals "continue"). -/
def cbFalse : Callback := fun _ _ => false

/-- Render one `key: value` line as the character list `key ++ ":" ++ value ++ "\n"`. -/
def renderLine (kv : List Char × List Char) : List Char :=
  kv.1 ++ ':' :: (kv.2 ++ ['\n'])

/-- Render a flat root-level mapping, one `key: value` line per pair. -/
def renderLines (ls : List (List Char × List Char)) : List Char :=
  (ls.map renderLine).flatten

/-- The event the scanner is expected to emit for one root-level
`key: value` line: a single `Slice` of the trimmed key, and the classified
trimmed scalar. -/
def evOf (kv : List Char × List Char) : Event :=
  ([YAMLKey.Slice (trimList kv.1)], classifyScalar (trimList kv.2))

/-- A well-formed root-level key: nonempty, starts with a non-whitespace
character other than `-`, and contains no `:` and no newline. -/
def goodKey : List Char → Bool
  | [] => false
  | c :: cs =>
    !rustIsWhitespace c && !(c == '-') &&
    !((c :: cs).contains ':') && !((c :: cs).contains '\n')

/-- A well-formed inline scalar: no newline, nonempty after trimming, not a
block-scalar marker, and its first non-whitespace character is not `-`
(which would switch the scanner into the `ListItem` state). -/
def goodVal (v : List Char) : Bool :=
  !(v.contains '\n') && !(trimList v).isEmpty &&
  !(trimList v == ['|']) && !(trimList v == ['>']) &&
  (match v.dropWhile rustIsWhitespace with
   | [] => true
   | c :: _ => !(c == '-'))

/-- Whether a scanner state still holds an in-flight (unemitted) value. -/
def inFlightState : State → Bool
  | State.Value => true
  | State.ListItem => true
  | State.Multiline _ _ _ => true
  | _ => false

theorem go_nil (opts : ParseOptions) (cb : Callback) (on' : List Char) (i : Nat)
    (st : ScanState) : go opts cb on' [] i st = st := rfl

theorem go_cons (opts : ParseOptions) (cb : Callback) (on' : List Char) (c : Char)
    (cs : List Char) (i : Nat) (st : ScanState) :
    go opts cb on' (c :: cs) i st = go opts cb on' cs (i + 1) (step opts cb on' i c st) := rfl

theorem go_append (opts : ParseOptions) (cb : Callback) (on' : List Char)
    (l1 l2 : List Char) (i : Nat) (st : ScanState) :
    go opts cb on' (l1 ++ l2) i st
      = go opts cb on' l2 (i + l1.length) (go opts cb on' l1 i st) := by
  induction l1 generalizing i st with
  | nil => simp [go]
  | cons c cs ih =>
    simp only [List.cons_append, go_cons, ih, List.length_cons]
    congr 1
    omega

/-- The scanner emits events only while processing a newline character. -/
theorem step_events_of_ne_newline (opts : ParseOptions) (cb : Callback)
    (on' : List Char) (i : Nat) (chr : Char) (st : ScanState) (h : chr ≠ '\n') :
    (step opts cb on' i chr st).events = st.events := by
  rcases st with ⟨s, kc, li, ind, sa, ev⟩
  cases s <;> simp only [step, h] <;> (repeat' split) <;> simp_all

theorem go_events_of_no_newline (opts : ParseOptions) (cb : Callback)
    (on' : List Char) (l : List Char) (i : Nat) (st : ScanState)
    (h : ∀ c ∈ l, c ≠ '\n') :
    (go opts cb on' l i st).events = st.events := by
  induction l generalizing i st with
  | nil => rfl
  | cons c cs ih =>
    rw [go_cons, ih _ _ (fun d hd => h d (List.mem_cons_of_mem c hd)),
      step_events_of_ne_newline _ _ _ _ _ _ (h c (List.mem_cons_self c cs))]

/-- The scanner discards the callback's boolean result, so the step function
does not depend on the callback at all. -/
theorem step_cb_eq (opts : ParseOptions) (f g : Callback) (on' : List Char)
    (i : Nat) (chr : Char) (st : ScanState) :
    step opts f on' i chr st = step opts g on' i chr st := by
  rcases st with ⟨s, kc, li, ind, sa, ev⟩
  cases s <;> rfl

theorem go_cb_eq (opts : ParseOptions) (f g : Callback) (on' : List Char)
    (l : List Char) (i : Nat) (st : ScanState) :
    go opts f on' l i st = go opts g on' l i st := by
  induction l generalizing i st with
  | nil => rfl
  | cons c cs ih => rw [go_cons, go_cons, step_cb_eq opts f g, ih]

theorem head_dropWhile_false (p : Char → Bool) (l : List Char) (c : Char)
    (r : List Char) (h : l.dropWhile p = c :: r) : p c = false := by
  induction l with
  | nil => simp at h
  | cons a as ih =>
    rw [List.dropWhile_cons] at h
    by_cases hp : p a = true
    · exact ih (by simpa [hp] using h)
    · obtain ⟨rfl, -⟩ : a = c ∧ as = r := by
        simpa [hp] using h
      simpa using hp

theorem trimList_eq_nil_iff (s : List Char) :
    trimList s = [] ↔ ∀ c ∈ s, rustIsWhitespace c = true := by
  unfold trimList
  rw [List.reverse_eq_nil_iff, List.dropWhile_eq_nil_iff]
  constructor
  · intro h c hc
    rcases hd : s.dropWhile rustIsWhitespace with _ | ⟨a, as⟩
    · exact List.dropWhile_eq_nil_iff.mp hd c hc
    · have : rustIsWhitespace a = true := by
        have := h a (by simp [hd])
        simpa using this
      rw [head_dropWhile_false _ _ _ _ hd] at this
      simp at this
  · intro h c hc
    rw [List.mem_reverse] at hc
    exact h c ((List.dropWhile_sublist rustIsWhitespace).mem hc)

theorem dropWhile_append_all (p : Char → Bool) (u t : List Char)
    (h : ∀ x ∈ u, p x = true) : (u ++ t).dropWhile p = t.dropWhile p := by
  induction u with
  | nil => rfl
  | cons a as ih =>
    rw [List.cons_append, List.dropWhile_cons, if_pos (h a (List.mem_cons_self a as))]
    exact ih fun x hx => h x (List.mem_cons_of_mem a hx)

theorem sliceBetween_take (pre w suf : List Char) (j : Nat) (hj : j ≤ w.length) :
    sliceBetween (pre ++ (w ++ suf)) pre.length (pre.length + j) = w.take j := by
  unfold sliceBetween
  rw [show pre.length + j - pre.length = j from by omega, List.drop_left,
    List.take_append_of_le_length hj]

theorem sliceBetween_exact (pre w suf : List Char) :
    sliceBetween (pre ++ (w ++ suf)) pre.length (pre.length + w.length) = w := by
  rw [sliceBetween_take pre w suf w.length (Nat.le_refl _), List.take_length]

/-- In the `Identifier` state every character except `:` is ignored. -/
theorem ident_skips (opts : ParseOptions) (cb : Callback) (on' : List Char) :
    ∀ (w : List Char) (q : Nat) (st : ScanState),
    st.state = State.Identifier → ':' ∉ w → go opts cb on' w q st = st := by
  intro w
  induction w with
  | nil => intro q st _ _; rfl
  | cons c cs ih =>
    intro q st hst hmem
    have hc : c ≠ ':' := fun h => hmem (h ▸ List.mem_cons_self c cs)
    have hstep : step opts cb on' q c st = st := by
      simp [step, hst, hc]
    rw [go_cons, hstep]
    exact ih (q + 1) st hst fun h => hmem (List.mem_cons_of_mem c h)

/-- In the `Value` state, a character that is neither a newline nor a leading
`-` leaves the scanner state untouched. -/
theorem value_skips (opts : ParseOptions) (cb : Callback) (on' : List Char) :
    ∀ (w : List Char) (q : Nat) (st : ScanState),
    st.state = State.Value →
    (∀ (u : List Char) (c : Char) (r : List Char), w = u ++ c :: r →
      c ≠ '\n' ∧ (trimList (sliceBetween on' st.start (q + u.length)) = [] → c ≠ '-')) →
    go opts cb on' w q st = st := by
  intro w
  induction w with
  | nil => intro q st _ _; rfl
  | cons c cs ih =>
    intro q st hst h
    obtain ⟨hnl, hdash⟩ := h [] c cs rfl
    have hstep : step opts cb on' q c st = st := by
      simp only [List.length_nil, Nat.add_zero] at hdash
      simp only [step, hst]
      rw [if_neg (fun hand => hdash hand.1 hand.2), if_neg hnl]
    rw [go_cons, hstep]
    refine ih (q + 1) st hst fun u d r hw => ?_
    have := h (c :: u) d r (by rw [hw, List.cons_append])
    simpa [Nat.add_comm, Nat.add_assoc, Nat.add_left_comm] using this

/-- The `:` transition of the `Identifier` state when the key chain is empty
and no indentation has accumulated. -/
theorem colon_step_root (opts : ParseOptions) (cb : Callback) (on' : List Char)
    (q : Nat) (st : ScanState) (hst : st.state = State.Identifier)
    (hchain : st.key_chain = []) (hind : st.indent = 0) :
    step opts cb on' q ':' st =
      { st with key_chain := [YAMLKey.Slice (trimList (sliceBetween on' st.start q))],
                state := State.Value, start := q + 1 } := by
  simp [step, hst, hchain, hind, countNamed, Nat.zero_div]

/-- The newline transition of the `Value` state for a plain scalar. -/
theorem value_newline_step (opts : ParseOptions) (cb : Callback) (on' : List Char)
    (q : Nat) (st : ScanState) (hst : st.state = State.Value)
    (hne : trimList (sliceBetween on' st.start q) ≠ [])
    (hpipe : trimList (sliceBetween on' st.start q) ≠ ['|'])
    (hgt : trimList (sliceBetween on' st.start q) ≠ ['>']) :
    step opts cb on' q '\n' st =
      { st with
          events := st.events ++
            [(st.key_chain, classifyScalar (trimList (sliceBetween on' st.start q)))],
          key_chain := st.key_chain.dropLast,
          state := State.Skip, indent := 0 } := by
  simp only [step, hst]
  rw [if_neg (fun hand => hne hand.1)]
  simp only [if_true, if_neg hne, if_neg hpipe, if_neg hgt]

/-- Entering `Identifier` from `Skip` at a non-whitespace, non-dash character. -/
theorem skip_entry_step (opts : ParseOptions) (cb : Callback) (on' : List Char)
    (q : Nat) (c : Char) (st : ScanState) (hst : st.state = State.Skip)
    (hdash : c ≠ '-') (hws : rustIsWhitespace c = false) :
    step opts cb on' q c st = { st with state := State.Identifier, start := q } := by
  have htab : c ≠ '\t' := fun h => by subst h; exact absurd hws (by decide)
  have hsp : c ≠ ' ' := fun h => by subst h; exact absurd hws (by decide)
  simp [step, hst, hdash, htab, hsp, hws]

theorem goodKey_cases (k : List Char) (h : goodKey k = true) :
    ∃ c cs, k = c :: cs ∧ rustIsWhitespace c = false ∧ c ≠ '-' ∧ ':' ∉ k ∧ '\n' ∉ k := by
  cases k with
  | nil => simp [goodKey] at h
  | cons c cs =>
    simp only [goodKey, Bool.and_eq_true, Bool.not_eq_true'] at h
    obtain ⟨⟨⟨hws, hdash⟩, hcolon⟩, hnl⟩ := h
    refine ⟨c, cs, rfl, hws, by simpa using hdash, ?_, ?_⟩
    · intro hmem
      simp [List.contains] at hcolon
      rcases List.mem_cons.mp hmem with heq | hm
      · exact hcolon.1 heq
      · exact hcolon.2 hm
    · intro hmem
      simp [List.contains] at hnl
      rcases List.mem_cons.mp hmem with heq | hm
      · exact hnl.1 heq
      · exact hnl.2 hm

theorem goodVal_spec (v : List Char) (h : goodVal v = true) :
    '\n' ∉ v ∧ trimList v ≠ [] ∧ trimList v ≠ ['|'] ∧ trimList v ≠ ['>'] ∧
    (∀ u c r, v = u ++ c :: r → trimList u = [] → c ≠ '-') := by
  simp only [goodVal, Bool.and_eq_true, Bool.not_eq_true'] at h
  obtain ⟨⟨⟨⟨hnl, hne⟩, hpipe⟩, hgt⟩, hdash⟩ := h
  refine ⟨?_, ?_, ?_, ?_, ?_⟩
  · intro hmem
    simp [List.contains] at hnl
    exact hnl hmem
  · intro hn
    rw [hn] at hne
    simp at hne
  · intro hp
    rw [hp] at hpipe
    simp at hpipe
  · intro hg
    rw [hg] at hgt
    simp at hgt
  · rintro u c r rfl htrim rfl
    have hall : ∀ x ∈ u, rustIsWhitespace x = true := (trimList_eq_nil_iff u).mp htrim
    rw [dropWhile_append_all _ u _ hall, List.dropWhile_cons,
      if_neg (by decide : ¬rustIsWhitespace '-' = true)] at hdash
    simp at hdash

/-- Processing one well-formed root-level `key: value` line from a fresh line
start with an empty key chain and zero indentation emits exactly the expected
event and returns to the `Skip` state. -/
theorem line_run (opts : ParseOptions) (cb : Callback) (k v pre suf on' : List Char)
    (st : ScanState)
    (hON : on' = pre ++ (renderLine (k, v) ++ suf))
    (hk : goodKey k = true) (hv : goodVal v = true)
    (hst : st.state = State.Skip ∨ (st.state = State.Identifier ∧ st.start = pre.length))
    (hchain : st.key_chain = []) (hind : st.indent = 0) :
    go opts cb on' (renderLine (k, v)) pre.length st
      = ⟨State.Skip, [], st.list_idx, 0, pre.length + k.length + 1,
         st.events ++ [evOf (k, v)]⟩ := by
  obtain ⟨hvnl, hvne, hvp, hvg, hvdash⟩ := goodVal_spec v hv
  obtain ⟨c, cs, rfl, hcws, hcdash, hkcolon, hknl⟩ := goodKey_cases k hk
  have hON1 : on' = pre ++ ((c :: cs) ++ ((':' :: (v ++ ['\n'])) ++ suf)) := by
    rw [hON]; simp [renderLine]
  have hON2 : on' = (pre ++ (c :: cs) ++ [':']) ++ (v ++ ('\n' :: suf)) := by
    rw [hON]; simp [renderLine]
  have key_slice :
      sliceBetween on' pre.length (pre.length + (c :: cs).length) = c :: cs := by
    rw [hON1]; exact sliceBetween_exact pre (c :: cs) _
  have hAlen : (pre ++ (c :: cs) ++ [':']).length
      = pre.length + (c :: cs).length + 1 := by
    simp only [List.length_append, List.length_cons, List.length_nil]
  have val_slice_take : ∀ j, j ≤ v.length →
      sliceBetween on' (pre.length + (c :: cs).length + 1)
        (pre.length + (c :: cs).length + 1 + j) = v.take j := by
    intro j hj
    rw [hON2, ← hAlen]
    exact sliceBetween_take _ v _ j hj
  have val_slice :
      sliceBetween on' (pre.length + (c :: cs).length + 1)
        (pre.length + (c :: cs).length + 1 + v.length) = v := by
    rw [val_slice_take v.length (Nat.le_refl _), List.take_length]
  have hcscolon : ':' ∉ cs := fun hm => hkcolon (List.mem_cons_of_mem c hm)
  -- the state at the start of the identifier phase
  have phaseA :
      go opts cb on' (renderLine (c :: cs, v)) pre.length st
        = go opts cb on' (':' :: (v ++ ['\n'])) (pre.length + (c :: cs).length)
            { st with state := State.Identifier, start := pre.length } := by
    rcases hst with hskip | ⟨hident, hstart⟩
    · rw [show renderLine (c :: cs, v) = c :: (cs ++ ':' :: (v ++ ['\n'])) from by
        simp [renderLine]]
      rw [go_cons, skip_entry_step _ _ _ _ _ _ hskip hcdash hcws, go_append,
        ident_skips _ _ _ cs _ _ rfl hcscolon]
      congr 1
      simp [List.length_cons]
      omega
    · have hsteq : { st with state := State.Identifier, start := pre.length } = st := by
        rcases st with ⟨s, kc, li, ind, sa, ev⟩
        simp only at hident hstart
        simp [hident, hstart]
      rw [hsteq, show renderLine (c :: cs, v) = (c :: cs) ++ (':' :: (v ++ ['\n'])) from by
        simp [renderLine]]
      rw [go_append, ident_skips _ _ _ (c :: cs) _ _ hident hkcolon]
  have phaseB :
      step opts cb on' (pre.length + (c :: cs).length) ':'
          { st with state := State.Identifier, start := pre.length }
        = { st with
              state := State.Value
              key_chain := [YAMLKey.Slice (trimList (c :: cs))]
              start := pre.length + (c :: cs).length + 1 } := by
    rw [colon_step_root _ _ _ _ _ rfl (by simpa using hchain) (by simpa using hind)]
    simp only [key_slice]
  have phaseC :
      go opts cb on' v (pre.length + (c :: cs).length + 1)
          { st with
              state := State.Value
              key_chain := [YAMLKey.Slice (trimList (c :: cs))]
              start := pre.length + (c :: cs).length + 1 }
        = { st with
              state := State.Value
              key_chain := [YAMLKey.Slice (trimList (c :: cs))]
              start := pre.length + (c :: cs).length + 1 } := by
    refine value_skips _ _ _ v _ _ rfl ?_
    rintro u d r rfl
    dsimp only
    refine ⟨fun hd => hvnl (hd ▸ List.mem_append_right u (List.mem_cons_self d r)), ?_⟩
    intro hslice
    have hu : u.length ≤ (u ++ d :: r).length := by simp
    rw [val_slice_take u.length hu, List.take_left] at hslice
    exact hvdash u d r rfl hslice
  have phaseD :
      step opts cb on' (pre.length + (c :: cs).length + 1 + v.length) '\n'
          { st with
              state := State.Value
              key_chain := [YAMLKey.Slice (trimList (c :: cs))]
              start := pre.length + (c :: cs).length + 1 }
        = ⟨State.Skip, [], st.list_idx, 0, pre.length + (c :: cs).length + 1,
           st.events ++ [evOf (c :: cs, v)]⟩ := by
    rw [value_newline_step _ _ _ _ _ rfl (by dsimp only; rw [val_slice]; exact hvne)
      (by dsimp only; rw [val_slice]; exact hvp)
      (by dsimp only; rw [val_slice]; exact hvg)]
    dsimp only
    rw [val_slice]
    simp [evOf]
  rw [phaseA, go_cons, phaseB, go_append, phaseC, go_cons, go_nil, phaseD]

/-- Scanning a sequence of well-formed root-level `key: value` lines appends
exactly one expected event per line. -/
theorem run_lines (opts : ParseOptions) (cb : Callback) :
    ∀ (ls : List (List Char × List Char)) (pre on' : List Char) (st : ScanState),
    on' = pre ++ renderLines ls →
    (∀ kv ∈ ls, goodKey kv.1 = true ∧ goodVal kv.2 = true) →
    st.state = State.Skip ∨ (st.state = State.Identifier ∧ st.start = pre.length) →
    st.key_chain = [] → st.indent = 0 →
    (go opts cb on' (renderLines ls) pre.length st).events = st.events ++ ls.map evOf := by
  intro ls
  induction ls with
  | nil =>
    intro pre on' st _ _ _ _ _
    simp [renderLines, go_nil]
  | cons kv rest ih =>
    intro pre on' st hON hgood hst hchain hind
    obtain ⟨k, v⟩ := kv
    have hrl : renderLines ((k, v) :: rest) = renderLine (k, v) ++ renderLines rest := by
      simp [renderLines]
    rw [hrl] at hON ⊢
    rw [go_append]
    rw [line_run opts cb k v pre (renderLines rest) on' st hON
      (hgood (k, v) (List.mem_cons_self _ _)).1
      (hgood (k, v) (List.mem_cons_self _ _)).2 hst hchain hind]
    have hON' : on' = (pre ++ renderLine (k, v)) ++ renderLines rest := by
      rw [hON, List.append_assoc]
    have hrest := ih (pre ++ renderLine (k, v)) on'
      ⟨State.Skip, [], st.list_idx, 0, pre.length + k.length + 1,
       st.events ++ [evOf (k, v)]⟩ hON'
      (fun kv hm => hgood kv (List.mem_cons_of_mem _ hm)) (Or.inl rfl) rfl rfl
    have hlen : (pre ++ renderLine (k, v)).length = pre.length + (renderLine (k, v)).length := by
      simp
    rw [hlen] at hrest
    rw [hrest]
    simp

theorem countNamed_append (a b : List YAMLKey) :
    countNamed (a ++ b) = countNamed a + countNamed b := by
  simp [countNamed, List.filter_append]

theorem countNamed_le_length (a : List YAMLKey) : countNamed a ≤ a.length :=
  List.length_filter_le _ a

/-- Claim C1 (code bug): the callback's stop signal is ignored.  The three
`cb(...)` call sites in `parse_with_exit_signal` (src/lib.rs lines 140, 174,
226) discard the returned boolean, so with a callback that requests a stop on
every event the scanner still delivers the second event of
`"a: 1\nb: 2\n"` and scans to the end, contradicting the claim that no
(k+1)-th event is observed after a stop on the k-th. -/
theorem C1_exit_signal_ignored :
    (scanRun ("a: 1\nb: 2\n".toList) (fun _ _ => true) ParseOptions.default).events
      = [([YAMLKey.Slice "a".toList], RootYAMLValue.String "1".toList),
         ([YAMLKey.Slice "b".toList], RootYAMLValue.String "2".toList)] ∧
    parse_with_exit_signal ("a: 1\nb: 2\n".toList) (fun _ _ => true) ParseOptions.default
      = Except.ok () :=
  ⟨by decide, rfl⟩

/-- Claim C2 (code bug): the `|`/`>` flags are swapped.  src/lib.rs lines
121-123 map `"|"` to `(collapse := true, ...)` and `">"` to
`(collapse := false, ...)`, although the `collapse` field's own doc comment
(line 65) says collapsing is "Done using `>`".  On a `|` block the emitted
`MultilineString` has `collapse = true`, on a `>` block `collapse = false`;
`preserve_leading_whitespace` is `false` in both cases as the claim states. -/
theorem C2_block_scalar_flags_swapped :
    (scanRun ("k: |\n  a\nb: 1\n".toList) cbFalse ParseOptions.default).events
      = [([YAMLKey.Slice "k".toList],
          RootYAMLValue.MultilineString ⟨"\n  a".toList, true, false⟩),
         ([YAMLKey.Slice "b".toList], RootYAMLValue.String "1".toList)] ∧
    (scanRun ("k: >\n  a\nb: 1\n".toList) cbFalse ParseOptions.default).events
      = [([YAMLKey.Slice "k".toList],
          RootYAMLValue.MultilineString ⟨"\n  a".toList, false, false⟩),
         ([YAMLKey.Slice "b".toList], RootYAMLValue.String "1".toList)] := by
  decide

/-- Claim C3, counterexample: parsing the sample document never emits the
indexed events `places.list[0] = "something"` and `places.list[1] = "here"`
that the claim requires — the scanner has no handling for bracketed flow
lists. -/
theorem C3_counterexample :
    ([YAMLKey.Slice "places".toList, YAMLKey.Slice "list".toList, YAMLKey.Index 0],
        RootYAMLValue.String "something".toList)
      ∉ (scanRun sampleDoc cbFalse ParseOptions.default).events ∧
    ([YAMLKey.Slice "places".toList, YAMLKey.Slice "list".toList, YAMLKey.Index 1],
        RootYAMLValue.String "here".toList)
      ∉ (scanRun sampleDoc cbFalse ParseOptions.default).events := by
  decide

/-- Claim C3, amended: parsing the sample document delivers the bracketed flow
list after `places.list` as one single scalar event with key-path
`[places, list]` and value `PlainString "[\"something\", \"here\"]"`, not one
indexed event per element.  (The full event trace is fixed below; note also
`collapse = true` on the `|` block, the C2 code bug.) -/
theorem C3_flow_list_single_event :
    (scanRun sampleDoc cbFalse ParseOptions.default).events
      = [([YAMLKey.Slice "person".toList, YAMLKey.Slice "name".toList],
          RootYAMLValue.String "John Doe".toList),
         ([YAMLKey.Slice "person".toList, YAMLKey.Slice "description".toList],
          RootYAMLValue.MultilineString
            ⟨"\n    something here\n    that spans multiple lines".toList, true, false⟩),
         ([YAMLKey.Slice "person".toList, YAMLKey.Slice "age".toList],
          RootYAMLValue.String "30".toList),
         ([YAMLKey.Slice "person".toList, YAMLKey.Slice "something".toList,
           YAMLKey.Slice "x".toList], RootYAMLValue.True),
         ([YAMLKey.Slice "person".toList, YAMLKey.Slice "address".toList,
           YAMLKey.Slice "street".toList], RootYAMLValue.String "123 Main St".toList),
         ([YAMLKey.Slice "person".toList, YAMLKey.Slice "address".toList,
           YAMLKey.Slice "city".toList], RootYAMLValue.String "Example City".toList),
         ([YAMLKey.Slice "places".toList, YAMLKey.Slice "list".toList],
          RootYAMLValue.String "[\"something\", \"here\"]".toList),
         ([YAMLKey.Slice "places".toList, YAMLKey.Slice "inner".toList,
           YAMLKey.Slice "x".toList], RootYAMLValue.String "string".toList)] := by
  decide

/-- Claim C4, counterexample: the `Multiline` state's look-ahead counts a tab
as 1 column, not `indent_size` columns.  `upcomingScan` on a line starting
with a tab reports indent 1 while the default `indent_size` is 2, and on the
concrete document below the block therefore terminates before the
tab-indented line `"\tq"` (the block text is just `"\n  m"`), whereas
counting the tab as 2 columns would have kept the block (recorded indent 1)
open. -/
theorem C4_counterexample :
    (upcomingScan ("\tq\nz: 1\n".toList)).1 = 1 ∧
    ParseOptions.default.indent_size = 2 ∧
    (scanRun ("r:\n a: |\n  m\n\tq\nz: 1\n".toList) cbFalse ParseOptions.default).events
      = [([YAMLKey.Slice "a".toList],
          RootYAMLValue.MultilineString ⟨"\n  m".toList, true, false⟩),
         ([YAMLKey.Slice "q\nz".toList], RootYAMLValue.String "1".toList)] := by
  decide

/-- Claim C4, amended: in the `Skip` state a tab advances the running
indentation counter by `indent_size` and a space by 1 (src/lib.rs lines
237-240), while the `Multiline` state's look-ahead over the follow-on line
counts each tab or space as exactly 1 column (src/lib.rs lines 162-163). -/
theorem C4_indent_counting (opts : ParseOptions) (cb : Callback) (on' : List Char)
    (i : Nat) (st : ScanState) (rest : List Char) (hs : st.state = State.Skip) :
    (step opts cb on' i '\t' st).indent = st.indent + opts.indent_size ∧
    (step opts cb on' i ' ' st).indent = st.indent + 1 ∧
    (upcomingScan ('\t' :: rest)).1 = (upcomingScan rest).1 + 1 ∧
    (upcomingScan (' ' :: rest)).1 = (upcomingScan rest).1 + 1 := by
  refine ⟨?_, ?_, ?_, ?_⟩
  · simp [step, hs]
  · simp [step, hs]
  · simp [upcomingScan]
  · simp [upcomingScan]

theorem C4_witness :
    (step ParseOptions.default cbFalse [] 0 '\t'
        ⟨State.Skip, [], 0, 3, 0, []⟩).indent = 3 + ParseOptions.default.indent_size ∧
    (step ParseOptions.default cbFalse [] 0 ' '
        ⟨State.Skip, [], 0, 3, 0, []⟩).indent = 3 + 1 ∧
    (upcomingScan ('\t' :: "x".toList)).1 = (upcomingScan "x".toList).1 + 1 ∧
    (upcomingScan (' ' :: "x".toList)).1 = (upcomingScan "x".toList).1 + 1 :=
  C4_indent_counting ParseOptions.default cbFalse [] 0 ⟨State.Skip, [], 0, 3, 0, []⟩
    "x".toList rfl

/-- Claim C5, counterexample: the stated invariant fails.  (i) While scanning
`"a: 1\n"`, right after the `:` is consumed the key chain holds 1 Named entry
but the accumulated indentation is 0, so 1 ≠ 0 / indent_size.  (ii) While
scanning `"a:\n  - b: 1\nc: 2\n"`, after the event for the list item
`- b: 1` has fired (1 event emitted, scanner back in `Skip`), the key chain
is still `[a, Index 0]` — the `Index` entry pushed by the list-item colon
branch persists after the event instead of being popped immediately. -/
theorem C5_counterexample :
    (countNamed (runUpTo ("a: 1\n".toList) cbFalse ParseOptions.default 2).key_chain = 1 ∧
     (runUpTo ("a: 1\n".toList) cbFalse ParseOptions.default 2).indent
        / ParseOptions.default.indent_size = 0) ∧
    ((runUpTo ("a:\n  - b: 1\nc: 2\n".toList) cbFalse ParseOptions.default 12).key_chain
        = [YAMLKey.Slice "a".toList, YAMLKey.Index 0] ∧
     (runUpTo ("a:\n  - b: 1\nc: 2\n".toList) cbFalse ParseOptions.default 12).state
        = State.Skip ∧
     (runUpTo ("a:\n  - b: 1\nc: 2\n".toList) cbFalse ParseOptions.default 12).events.length
        = 1) := by
  decide

/-- Claim C5, amended: (i) when the scanner records a key at a `:` in the
`Identifier` state, after the dedent truncation the resulting key chain holds
at most `indent / indent_size + 1` Named entries (counting the newly pushed
key); (ii) the `Index` entry pushed for an inline scalar list item is popped
immediately after its event fires, leaving the key chain unchanged; (iii) the
`Index` entry pushed when a list item turns out to be a mapping stays on the
chain as the scanner moves to its value, persisting until a later
truncation. -/
theorem C5_key_chain_invariant (opts : ParseOptions) (cb : Callback)
    (on' : List Char) (idx : Nat) (st1 st2 : ScanState)
    (h1 : st1.state = State.Identifier) (h2 : st2.state = State.ListItem) :
    countNamed ((step opts cb on' idx ':' st1).key_chain)
        ≤ st1.indent / opts.indent_size + 1 ∧
    (step opts cb on' idx '\n' st2).key_chain = st2.key_chain ∧
    YAMLKey.Index st2.list_idx ∈ (step opts cb on' idx ':' st2).key_chain := by
  refine ⟨?_, ?_, ?_⟩
  · simp only [step, h1, eq_self_iff_true, if_true]
    by_cases hlt : st1.indent / opts.indent_size < countNamed st1.key_chain
    · rw [if_pos hlt]
      dsimp only
      rw [countNamed_append]
      have ha : countNamed (st1.key_chain.take (st1.indent / opts.indent_size))
          ≤ st1.indent / opts.indent_size :=
        le_trans (countNamed_le_length _) (List.length_take_le _ _)
      have hb : countNamed [YAMLKey.Slice
          (trimList (sliceBetween on' st1.start idx))] = 1 := by
        simp [countNamed]
      omega
    · rw [if_neg hlt]
      dsimp only
      rw [countNamed_append]
      have hb : countNamed [YAMLKey.Slice
          (trimList (sliceBetween on' st1.start idx))] = 1 := by
        simp [countNamed]
      omega
  · simp [step, h2]
  · simp [step, h2]

theorem C5_witness :
    countNamed ((step ParseOptions.default cbFalse [] 0 ':'
        ⟨State.Identifier, [], 0, 0, 0, []⟩).key_chain)
        ≤ 0 / ParseOptions.default.indent_size + 1 ∧
    (step ParseOptions.default cbFalse [] 0 '\n'
        ⟨State.ListItem, [], 5, 0, 0, []⟩).key_chain = [] ∧
    YAMLKey.Index 5 ∈ (step ParseOptions.default cbFalse [] 0 ':'
        ⟨State.ListItem, [], 5, 0, 0, []⟩).key_chain :=
  C5_key_chain_invariant ParseOptions.default cbFalse [] 0
    ⟨State.Identifier, [], 0, 0, 0, []⟩ ⟨State.ListItem, [], 5, 0, 0, []⟩ rfl rfl

/-- Claim C6: on `"a:\n  b: 1\nc: 2\n"` with default options exactly two
events are emitted, `([a, b], "1")` then `([c], "2")` — the dedent truncation
removes `b` before `c` is recorded. -/
theorem C6_dedent_events :
    (scanRun ("a:\n  b: 1\nc: 2\n".toList) cbFalse ParseOptions.default).events
      = [([YAMLKey.Slice "a".toList, YAMLKey.Slice "b".toList],
          RootYAMLValue.String "1".toList),
         ([YAMLKey.Slice "c".toList], RootYAMLValue.String "2".toList)] := by
  decide

/-- Claim C7: for any input consisting solely of well-formed root-level
`key: value` lines, the scanner emits exactly one event per line, whose
key-path is the single Named entry holding the trimmed key text and whose
value is `True` for the literal `true`, `False` for `false`, and otherwise
the `PlainString` of the trimmed scalar text.  This holds for every callback
and every configuration. -/
theorem C7_root_mapping (opts : ParseOptions) (cb : Callback)
    (ls : List (List Char × List Char))
    (h : ∀ kv ∈ ls, goodKey kv.1 = true ∧ goodVal kv.2 = true) :
    (scanRun (renderLines ls) cb opts).events = ls.map evOf := by
  have hrun := run_lines opts cb ls [] (renderLines ls) initState (by simp) h
    (Or.inr ⟨rfl, rfl⟩) rfl rfl
  simpa [scanRun, initState] using hrun

theorem C7_witness :
    (∀ kv ∈ [("a".toList, " 1".toList), ("b".toList, " true".toList)],
      goodKey kv.1 = true ∧ goodVal kv.2 = true) ∧
    (scanRun (renderLines [("a".toList, " 1".toList), ("b".toList, " true".toList)])
        cbFalse ParseOptions.default).events
      = [([YAMLKey.Slice "a".toList], RootYAMLValue.String "1".toList),
         ([YAMLKey.Slice "b".toList], RootYAMLValue.True)] :=
  ⟨by decide,
   (C7_root_mapping ParseOptions.default cbFalse
      [("a".toList, " 1".toList), ("b".toList, " true".toList)] (by decide)).trans
     (by decide)⟩

/-- Claim C8: events are emitted only while a newline character is being
processed, so on an input whose trailing segment contains no newline the
event trace equals the trace after the last newline was consumed — the final
in-flight `Value`/`ListItem`/`Multiline` state is never flushed — and the
function still returns success. -/
theorem C8_no_trailing_flush (p t : List Char) (cb : Callback) (opts : ParseOptions)
    (hnl : ∀ c ∈ t, c ≠ '\n')
    (hstate : inFlightState (scanRun (p ++ t) cb opts).state = true) :
    (scanRun (p ++ t) cb opts).events = (runUpTo (p ++ t) cb opts p.length).events ∧
    parse_with_exit_signal (p ++ t) cb opts = Except.ok () := by
  constructor
  · unfold scanRun runUpTo
    rw [List.take_left p t, go_append]
    exact go_events_of_no_newline _ _ _ t _ _ hnl
  · rfl

theorem C8_witness :
    (scanRun ("a: 1\n".toList ++ "b: 2".toList) cbFalse ParseOptions.default).events
      = (runUpTo ("a: 1\n".toList ++ "b: 2".toList) cbFalse ParseOptions.default
          ("a: 1\n".toList).length).events ∧
    parse_with_exit_signal ("a: 1\n".toList ++ "b: 2".toList) cbFalse ParseOptions.default
      = Except.ok () :=
  C8_no_trailing_flush "a: 1\n".toList "b: 2".toList cbFalse ParseOptions.default
    (by decide) (by decide)

/-- Claim C9: scanning the same buffer with the same configuration twice,
with callbacks returning the same continue signals, yields identical event
sequences.  (The scanner in fact ignores the returned signals entirely, so
the traces agree for any two callbacks.) -/
theorem C9_deterministic_events (on' : List Char) (opts : ParseOptions)
    (f g : Callback) (h : ∀ ks v, f ks v = g ks v) :
    (scanRun on' f opts).events = (scanRun on' g opts).events := by
  unfold scanRun
  rw [go_cb_eq opts f g]

theorem C9_witness :
    (scanRun ("a: 1\n".toList) (fun _ _ => true) ParseOptions.default).events
      = (scanRun ("a: 1\n".toList) (fun _ _ => !false) ParseOptions.default).events :=
  C9_deterministic_events "a: 1\n".toList ParseOptions.default
    (fun _ _ => true) (fun _ _ => !false) (fun _ _ => rfl)

/-- Claim C10: `parse_with_exit_signal` and `parse` return success on every
input, callback and configuration — the scan loop has no error path, so none
of the five declared `YAMLParseErrorReason` kinds is ever produced. -/
theorem C10_never_errors (on' : List Char) (cb : Callback) (opts : ParseOptions)
    (cbu : List YAMLKey → RootYAMLValue → Unit) :
    parse_with_exit_signal on' cb opts = Except.ok () ∧
    parse on' cbu = Except.ok () :=
  ⟨rfl, rfl⟩
